import Mathlib

/-!
Verification of the board/piece core of a micro-Tetris implementation
(`src/tetris.c`).  The board is a flat array of `B_ROWS * B_COLS = 23 * 12
= 276` integer cells indexed by `row * 12 + col`; it is embedded here as a
total function `Int → Int` (cell index to occupancy/colour tag), updates
being function overrides.  Shapes are the 19-entry flat catalog `shapes`
(5 ints per entry: rotation-successor index, three relative cell offsets,
colour).  All operations are translated directly from the C source:
`fits_in`, `place`, the board initialisation of `init`, the line-clear
loop of `main`, the rotation handlers, and the scoring/level updates.
Machine `long` arithmetic is modelled on `Int`, with explicit two's
complement wrapping (`wrapLong`) where signed overflow matters.
-/

namespace Tetris

/-- A board: flat cell index (`row * 12 + col`) to occupancy/colour tag.
`0` is empty; nonzero is occupied (`60` is the border tag from `init`). -/
abbrev Board := Int → Int

/-- The shape catalog, transcribed verbatim from the `shapes[]` array of the
source (with `B_COLS = 12`, so `TL = -13, TC = -12, TR = -11, ML = -1,
MR = 1, BL = 11, BC = 12, BR = 13`).  Each 5-tuple is
(rotation-successor index, offset1, offset2, offset3, colour). -/
def shapes : List Int :=
  [ 7, -13, -12,   1, 2,
    8, -11, -12,  -1, 3,
    9,  -1,   1,  12, 1,
    3, -13, -12,  -1, 4,
   12,  -1,  11,   1, 5,
   15,  -1,  13,   1, 6,
   18,  -1,   1,   2, 7,
    0, -12,  -1,  11, 2,
    1, -12,   1,  13, 3,
   10, -12,   1,  12, 1,
   11, -12,  -1,   1, 1,
    2, -12,  -1,  12, 1,
   13, -12,  12,  13, 5,
   14, -11,  -1,   1, 5,
    4, -13, -12,  12, 5,
   16, -11, -12,  12, 6,
   17, -13,   1,  -1, 6,
    5, -12,  12,  11, 6,
    6, -12,  12,  24, 7 ]

/-- Field `j` of catalog entry `k` (the C code's `shapes[5*k + j]`). -/
def off (k j : Nat) : Int := shapes.getD (5 * k + j) 0

/-- Rotation-successor index of entry `k` (field 0); the C code's
`shape = &shapes[5 * *shape]` step reads this. -/
def succIdx (k : Nat) : Nat := (off k 0).toNat

/-- Predecessor lookup of the `KEY_ROTATE` handler: a linear search over the
19 catalog entries for the first entry whose successor field equals the
current index, defaulting to the current index when none matches. -/
def predIdx (k : Nat) : Nat :=
  (((List.range 19).find? fun i => succIdx i == k).getD k)

/-- `fits_in` from the source: the shape with catalog index `k` fits at
anchor `pos` iff none of the four absolute cells is occupied.  There is no
bounds test, exactly as in the C code. -/
def fits_in (b : Board) (k : Nat) (pos : Int) : Bool :=
  if b pos != 0 || b (pos + off k 1) != 0 || b (pos + off k 2) != 0 ||
      b (pos + off k 3) != 0 then
    false
  else
    true

/-- Single-cell write (one `board[p] = v` assignment). -/
def setCell (b : Board) (p : Int) (v : Int) : Board :=
  fun q => if q = p then v else b q

/-- `place` from the source: unconditionally writes colour `c` into the four
absolute cells of shape `k` anchored at `pos`. -/
def place (b : Board) (k : Nat) (pos : Int) (c : Int) : Board :=
  setCell (setCell (setCell (setCell b pos c) (pos + off k 1) c)
    (pos + off k 2) c) (pos + off k 3) c

/-- Flat index of the cell at row `y`, column `x` (`y * B_COLS + x`). -/
def posOf (y x : Nat) : Int := 12 * (y : Int) + (x : Int)

/-- The board produced by `init`: the loop
`for (i = B_SIZE; i; i--) *ptr++ = i < 25 || i % B_COLS < 2 ? 60 : 0;`
writes cell `p` (with `i = 276 - p`) to the border tag 60 when
`276 - p < 25` (the bottom two rows) or `(276 - p) % 12 < 2` (the leftmost
and rightmost columns), and to 0 otherwise.  Cells outside the array are
not part of the C object; they are mapped to 0. -/
def initBoard : Board := fun p =>
  if 0 ≤ p ∧ p < 276 then
    (if 276 - p < 25 ∨ (276 - p) % 12 < 2 then 60 else 0)
  else 0

/-- The cells that `init` tags as border: the leftmost column
(`p % 12 = 0`), the rightmost column (`p % 12 = 11`) and the bottom two
rows (`252 ≤ p < 276`).  Note the top row's interior is NOT border. -/
def borderCell (p : Int) : Bool :=
  decide (0 ≤ p) && decide (p < 276) &&
    (decide (p % 12 = 0) || decide (p % 12 = 11) || decide (252 ≤ p))

/-- The four absolute cells of shape `k` anchored at `pos`. -/
def cellsOf (k : Nat) (pos : Int) : List Int :=
  [pos, pos + off k 1, pos + off k 2, pos + off k 3]

/-- Row `i` is full: every non-border cell (columns 1..10) is occupied
(the inner scan of the line-clear loop in `main`). -/
def rowFull (b : Board) (i : Nat) : Bool :=
  (List.range' 1 10).all fun x => b (posOf i x) != 0

/-- Clear row `i`: the loop `for (x = 1; x < B_COLS-1; ++x)
board[i*B_COLS+x] = 0;` zeroes the non-border cells of row `i`. -/
def clearRow (b : Board) (i : Nat) : Board := fun p =>
  if posOf i 1 ≤ p ∧ p ≤ posOf i 10 then 0 else b p

/-- One iteration of the shift loop: row `y` receives row `y - 1`
(columns 1..10 only).  The source reads row `y - 1`, which that inner loop
never writes, so reading from the pre-iteration board is exact. -/
def copyRow (b : Board) (y : Nat) : Board := fun p =>
  if posOf y 1 ≤ p ∧ p ≤ posOf y 10 then b (p - 12) else b p

/-- The descending shift loop `for (y = i; y > 0; --y)`: rows `i, i-1, ..., 1`
each receive the row above.  Row 0 is never written. -/
def shiftRows : Board → Nat → Board
  | b, 0 => b
  | b, y + 1 => shiftRows (copyRow b (y + 1)) y

/-- One clear-plus-shift step of the line-clear engine at full row `i`. -/
def clearShiftStep (b : Board) (i : Nat) : Board :=
  shiftRows (clearRow b i) i

/-- The clear-cycle of `main`: scan rows `i = 1 .. B_ROWS-3 = 20`
top-to-bottom; on a full row, clear it, shift everything above it down one,
and re-examine the same row index (`--i` then `++i`).  `fuel` bounds the
number of loop iterations (the C loop has no such bound; on boards whose
hidden top row is full the C loop does not terminate, see `C4`). -/
def clearCycle : Nat → Board → Nat → Nat → Option (Board × Nat)
  | 0, _, _, _ => none
  | fuel + 1, b, i, clears =>
    if 21 ≤ i then some (b, clears)
    else if rowFull b i then
      clearCycle fuel (clearShiftStep b i) i (clears + 1)
    else
      clearCycle fuel b (i + 1) clears

/-- The hidden top row (row 0) has all its non-border cells empty. -/
def row0Empty (b : Board) : Bool :=
  (List.range' 1 10).all fun x => b (posOf 0 x) == 0

/-- Number of occupied non-border cells of row `y`. -/
def rowCount (b : Board) (y : Nat) : Nat :=
  ((List.range' 1 10).filter fun x => b (posOf y x) != 0).length

/-- Number of occupied non-border cells in the scanned playing rows 1..20. -/
def countOcc (b : Board) : Nat :=
  (Finset.Ico 1 21).sum (rowCount b)

/-- The `KEY_RROTATE` handler: step to the catalog successor, keeping the
old shape when the result does not fit (the anchor is never touched). -/
def rotSucc (b : Board) (pos : Int) (k : Nat) : Nat :=
  if fits_in b (succIdx k) pos then succIdx k else k

/-- The `KEY_ROTATE` handler: linear search for the predecessor entry,
keeping the old shape when the result does not fit. -/
def rotPred (b : Board) (pos : Int) (k : Nat) : Nat :=
  if fits_in b (predIdx k) pos then predIdx k else k

/-- `LONG_MAX` for the 64-bit `long` of the target platform. -/
def LONG_MAX : Int := 9223372036854775807

/-- Two's complement wrap of a mathematical integer into the 64-bit signed
range, the behaviour gcc/clang exhibit on signed `long` overflow. -/
def wrapLong (x : Int) : Int :=
  (x + 9223372036854775808) % 18446744073709551616 - 9223372036854775808

/-- The score table of `main`, indexed by rows cleared in one lock-cycle. -/
def score_table : List Int := [0, 40, 100, 300, 1200]

/-- The scoring step after a lock-cycle, from `main`:
`if (clears > 0) { double ofcheck = points + score_table[clears] * level;
if (ofcheck > LONG_MAX) win; else points += score_table[clears] * level; }`.
The addition `points + score_table[clears] * level` is `long` arithmetic,
so it wraps (two's complement) before the guard can observe the overflow;
the conversion of the wrapped `long` to `double` rounds to at most `2^63`,
and the comparison's right side `LONG_MAX` also converts to `2^63`, so the
guard fires iff the wrapped sum exceeds `LONG_MAX` — which is what this
embedding tests.  Returns (new points, guard fired). -/
def scoreStepWrap (points : Int) (level : Nat) (clears : Nat) : Int × Bool :=
  if 0 < clears then
    if wrapLong (points + score_table.getD clears 0 * (level : Int)) >
        LONG_MAX then
      (points, true)
    else
      (wrapLong (points + score_table.getD clears 0 * (level : Int)), false)
  else (points, false)

/-- The level/lines normalisation loop of `update`:
`while (lines_cleared >= 10) { lines_cleared -= 10; level++; }`. -/
def levelUpdate (level lc : Nat) : Nat × Nat :=
  if 10 ≤ lc then levelUpdate (level + 1) (lc - 10) else (level, lc)
termination_by lc
decreasing_by omega

/-- A whole game's level progression: starting from level 1 and an empty
lines counter, fold in the per-lock-cycle clear counts, running the
`update` normalisation after each lock (`lines_cleared += clears` followed
by the `while` loop above). -/
def progress (cs : List Nat) : Nat × Nat :=
  cs.foldl (fun st c => levelUpdate st.1 (st.2 + c)) (1, 0)

/-! ### Helper lemmas -/

lemma range10 : List.range' 1 10 = [1, 2, 3, 4, 5, 6, 7, 8, 9, 10] := rfl

lemma fits_true_iff {b : Board} {k : Nat} {pos : Int} :
    fits_in b k pos = true ↔
      (b pos = 0 ∧ b (pos + off k 1) = 0 ∧ b (pos + off k 2) = 0 ∧
        b (pos + off k 3) = 0) := by
  unfold fits_in
  by_cases h0 : b pos = 0 <;> by_cases h1 : b (pos + off k 1) = 0 <;>
    by_cases h2 : b (pos + off k 2) = 0 <;>
    by_cases h3 : b (pos + off k 3) = 0 <;>
    simp [h0, h1, h2, h3]

lemma fits_false_iff {b : Board} {k : Nat} {pos : Int} :
    fits_in b k pos = false ↔
      (b pos ≠ 0 ∨ b (pos + off k 1) ≠ 0 ∨ b (pos + off k 2) ≠ 0 ∨
        b (pos + off k 3) ≠ 0) := by
  unfold fits_in
  by_cases h0 : b pos = 0 <;> by_cases h1 : b (pos + off k 1) = 0 <;>
    by_cases h2 : b (pos + off k 2) = 0 <;>
    by_cases h3 : b (pos + off k 3) = 0 <;>
    simp [h0, h1, h2, h3]

/-! ### C1 -/

/-- C1: for every shape and anchor, `fits_in` returns `false` iff at least
one of the four absolute cells `pos`, `pos + off k 1`, `pos + off k 2`,
`pos + off k 3` is occupied (nonzero, border cells included), and returns
`true` iff all four are empty. -/
theorem C1_fits_iff (b : Board) (k : Nat) (pos : Int) :
    (fits_in b k pos = false ↔
      (b pos ≠ 0 ∨ b (pos + off k 1) ≠ 0 ∨ b (pos + off k 2) ≠ 0 ∨
        b (pos + off k 3) ≠ 0)) ∧
    (fits_in b k pos = true ↔
      (b pos = 0 ∧ b (pos + off k 1) = 0 ∧ b (pos + off k 2) = 0 ∧
        b (pos + off k 3) = 0)) :=
  ⟨fits_false_iff, fits_true_iff⟩

/-! ### C10 -/

/-- C10: the rotation-successor indices stored in field 0 of the 19 catalog
entries form a permutation of `{0, ..., 18}`, and every index has exactly
one catalog entry whose successor field equals it, so the backward-rotation
linear search always finds exactly one match. -/
theorem C10_successor_permutation :
    ((List.range 19).map succIdx).Perm (List.range 19) ∧
    ((List.range 19).all fun k =>
      (((List.range 19).filter fun i => succIdx i == k).length == 1)) =
      true := by
  constructor
  · decide
  · decide

/-! ### C7 -/

lemma levelUpdate_eq : ∀ lc level : Nat,
    levelUpdate level lc = (level + lc / 10, lc % 10) := by
  intro lc
  induction lc using Nat.strong_induction_on with
  | _ lc ih =>
    intro level
    rw [levelUpdate]
    by_cases h : 10 ≤ lc
    · rw [if_pos h, ih (lc - 10) (by omega) (level + 1)]
      simp only [Prod.mk.injEq]
      omega
    · rw [if_neg h]
      simp only [Prod.mk.injEq]
      omega

lemma progress_eq : ∀ (cs : List Nat) (level lc : Nat), lc < 10 →
    cs.foldl (fun st c => levelUpdate st.1 (st.2 + c)) (level, lc) =
      (level + (lc + cs.sum) / 10, (lc + cs.sum) % 10) := by
  intro cs
  induction cs with
  | nil =>
    intro level lc h
    simp only [List.foldl_nil, List.sum_nil, Prod.mk.injEq]
    omega
  | cons c cs ih =>
    intro level lc h
    simp only [List.foldl_cons, List.sum_cons]
    rw [levelUpdate_eq]
    rw [ih (level + (lc + c) / 10) ((lc + c) % 10) (by omega)]
    simp only [Prod.mk.injEq]
    omega

/-- C7: within one game, after locks clearing `cs` lines in total
(distributed arbitrarily across clear-cycles, with the `update`
normalisation run after each lock), the level is exactly
`1 + (total cleared lines) / 10`, the residual lines counter is the total
modulo 10, and the level never decreases as further cycles happen. -/
theorem C7_level_progression (cs ds : List Nat) :
    (progress cs).1 = 1 + cs.sum / 10 ∧
    (progress cs).2 = cs.sum % 10 ∧
    (progress cs).1 ≤ (progress (cs ++ ds)).1 := by
  have h1 := progress_eq cs 1 0 (by omega)
  have h2 := progress_eq (cs ++ ds) 1 0 (by omega)
  unfold progress
  rw [h1, h2]
  simp only [List.sum_append]
  have hd : cs.sum / 10 ≤ (cs.sum + ds.sum) / 10 :=
    Nat.div_le_div_right (by omega)
  refine ⟨by omega, by omega, ?_⟩
  show 1 + (0 + cs.sum) / 10 ≤ 1 + (0 + (cs.sum + ds.sum)) / 10
  omega

/-! ### C6 and C9 (scoring and the overflow guard) -/

lemma wrapLong_bounds (x : Int) :
    -9223372036854775808 ≤ wrapLong x ∧ wrapLong x ≤ LONG_MAX := by
  unfold wrapLong LONG_MAX
  have h1 : 0 ≤ (x + 9223372036854775808) % 18446744073709551616 :=
    Int.emod_nonneg _ (by norm_num)
  have h2 : (x + 9223372036854775808) % 18446744073709551616 <
      18446744073709551616 :=
    Int.emod_lt_of_pos _ (by norm_num)
  omega

lemma wrapLong_eq_of_bounds (x : Int) (hlo : -9223372036854775808 ≤ x)
    (hhi : x ≤ LONG_MAX) : wrapLong x = x := by
  unfold wrapLong
  unfold LONG_MAX at hhi
  rw [Int.emod_eq_of_lt (by omega) (by omega)]
  omega

/-- C6 (counterexample to the claim as stated): on a lock at
`points = LONG_MAX` with one cleared row at level 1, the points total does
not increase by `base(1) * level = 40`: the `long` addition wraps around
(and the broken guard does not fire), so the claim's unconditional
"increases by exactly base(clears) * level" is false at this input. -/
theorem C6_counterexample :
    (scoreStepWrap 9223372036854775807 1 1).1 ≠
      9223372036854775807 + score_table.getD 1 0 * 1 := by decide

/-- C6 (amended): when a lock-cycle clears `clears ∈ {1,2,3,4}` rows and
the mathematical new total `points + score_table[clears] * level` stays
within the representable `long` range, the points total increases by
exactly `score_table[clears] * level` and the win guard does not fire;
when `clears = 0` the lock leaves the points total unchanged. -/
theorem C6_scoring (points : Int) (level clears : Nat)
    (hlo : -9223372036854775808 ≤ points)
    (hhi : points + score_table.getD clears 0 * (level : Int) ≤ LONG_MAX)
    (hc1 : 1 ≤ clears) (hc4 : clears ≤ 4) :
    (scoreStepWrap points level clears).1 =
      points + score_table.getD clears 0 * (level : Int) ∧
    (scoreStepWrap points level clears).2 = false ∧
    (scoreStepWrap points level 0).1 = points := by
  have hd : 0 ≤ score_table.getD clears 0 * (level : Int) :=
    mul_nonneg (by interval_cases clears <;> decide) (by positivity)
  have hw : wrapLong (points + score_table.getD clears 0 * (level : Int)) =
      points + score_table.getD clears 0 * (level : Int) :=
    wrapLong_eq_of_bounds _ (by omega) hhi
  unfold scoreStepWrap
  rw [if_pos (show 0 < clears by omega), hw,
    if_neg (show ¬points + score_table.getD clears 0 * (level : Int) >
      LONG_MAX by omega),
    if_neg (show ¬(0 : Nat) < 0 by omega)]
  exact ⟨rfl, rfl, rfl⟩

/-- C6 witness: a lock at `points = 0`, `level = 3`, `clears = 1` yields
exactly `40 * 3 = 120` points, matching the spec's worked example. -/
theorem C6_scoring_witness :
    (scoreStepWrap 0 3 1).1 = 0 + score_table.getD 1 0 * (3 : Int) ∧
    (scoreStepWrap 0 3 1).2 = false ∧ (scoreStepWrap 0 3 0).1 = 0 :=
  C6_scoring 0 3 1 (by decide) (by decide) (by omega) (by omega)

/-- C9: the overflow guard is dead code.  The addition
`points + score_table[clears] * level` is performed in `long` arithmetic,
so when the mathematical sum exceeds `LONG_MAX` it wraps (signed overflow,
undefined behaviour; two's complement wrap in practice) before the guard
compares anything, and a wrapped `long` can never compare greater than
`LONG_MAX`.  Hence the first conjunct: the guard never fires, on any
input — the game never transitions to `Won` from this path.  The second
conjunct evaluates the failing input `points = 9223372036854775800`,
`level = 1`, `clears = 1` (mathematical total `LONG_MAX + 33`): instead of
the claimed Won-and-unchanged outcome the points total wraps to the
negative value `-9223372036854775776`. -/
theorem C9_overflow_guard_dead :
    (∀ (points : Int) (level clears : Nat),
      (scoreStepWrap points level clears).2 = false) ∧
    scoreStepWrap 9223372036854775800 1 1 = (-9223372036854775776, false) := by
  constructor
  · intro points level clears
    unfold scoreStepWrap
    by_cases hc : 0 < clears
    · rw [if_pos hc, if_neg (not_lt.mpr (wrapLong_bounds _).2)]
    · rw [if_neg hc]
  · decide

/-! ### C8 (rotation round-trip) -/

lemma predIdx_succIdx : ∀ k, k < 19 → predIdx (succIdx k) = k := by decide

lemma succIdx_predIdx : ∀ k, k < 19 → succIdx (predIdx k) = k := by decide

/-- C8: for every catalog shape `k` and anchor, a forward rotation followed
by a backward rotation (and symmetrically) returns the piece to the
original shape whenever the shapes involved fit at that anchor, and a
rotation whose result does not fit is reverted to the prior shape (the
handlers never touch the anchor, so it is unchanged by construction). -/
theorem C8_rotation_inverse (b : Board) (pos : Int) (k : Nat) (hk : k < 19) :
    (fits_in b k pos = true → fits_in b (succIdx k) pos = true →
      rotPred b pos (rotSucc b pos k) = k) ∧
    (fits_in b k pos = true → fits_in b (predIdx k) pos = true →
      rotSucc b pos (rotPred b pos k) = k) ∧
    (fits_in b (succIdx k) pos = false → rotSucc b pos k = k) ∧
    (fits_in b (predIdx k) pos = false → rotPred b pos k = k) := by
  refine ⟨?_, ?_, ?_, ?_⟩
  · intro hfk hfs
    unfold rotSucc rotPred
    rw [if_pos hfs, predIdx_succIdx k hk, if_pos hfk]
  · intro hfk hfp
    unfold rotSucc rotPred
    rw [if_pos hfp, succIdx_predIdx k hk, if_pos hfk]
  · intro hns
    unfold rotSucc
    rw [hns]
    rfl
  · intro hnp
    unfold rotPred
    rw [hnp]
    rfl

/-- C8 witness: on the empty board at the spawn anchor 17, rotating shape 0
forward (to its successor, entry 7) and then backward returns shape 0. -/
theorem C8_rotation_inverse_witness :
    rotPred (fun _ => (0 : Int)) 17 (rotSucc (fun _ => (0 : Int)) 17 0) = 0 :=
  (C8_rotation_inverse (fun _ => (0 : Int)) 17 0 (by omega)).1
    (by decide) (by decide)

/-! ### Border and bounds lemmas (C2, C3) -/

lemma off_bounds : ∀ k, k < 19 → ∀ j, j < 4 → 1 ≤ j →
    -13 ≤ off k j ∧ off k j ≤ 24 := by decide

lemma fits_false_of_cell {b : Board} {k : Nat} {pos : Int} {p : Int}
    (hp : p ∈ cellsOf k pos) (hbp : b p ≠ 0) : fits_in b k pos = false := by
  rw [fits_false_iff]
  simp only [cellsOf, List.mem_cons, List.not_mem_nil, or_false] at hp
  rcases hp with rfl | rfl | rfl | rfl
  · exact Or.inl hbp
  · exact Or.inr (Or.inl hbp)
  · exact Or.inr (Or.inr (Or.inl hbp))
  · exact Or.inr (Or.inr (Or.inr hbp))

lemma borderCell_iff {p : Int} : borderCell p = true ↔
    0 ≤ p ∧ p < 276 ∧ (p % 12 = 0 ∨ p % 12 = 11 ∨ 252 ≤ p) := by
  unfold borderCell
  simp only [Bool.and_eq_true, Bool.or_eq_true, decide_eq_true_eq]
  tauto

lemma init_border : ∀ p : Int, borderCell p = true → initBoard p = 60 := by
  intro p hp
  rw [borderCell_iff] at hp
  obtain ⟨h0, h1, h2⟩ := hp
  unfold initBoard
  rw [if_pos ⟨h0, h1⟩, if_pos (by omega)]

lemma shiftRows_out : ∀ (i : Nat) (b : Board) (p : Int),
    (∀ y : Nat, 1 ≤ y → y ≤ i → ¬(posOf y 1 ≤ p ∧ p ≤ posOf y 10)) →
    shiftRows b i p = b p := by
  intro i
  induction i with
  | zero => intro b p _; rfl
  | succ i ih =>
    intro b p h
    show shiftRows (copyRow b (i + 1)) i p = b p
    rw [ih _ _ fun y hy1 hy2 => h y hy1 (by omega)]
    unfold copyRow
    rw [if_neg (h (i + 1) (by omega) (by omega))]

/-! ### C2 -/

/-- C2: (a) for every catalog shape and every anchor with row in
`[1, B_ROWS-3] = [1, 20]` and column in `[1, B_COLS-2] = [1, 10]`, all four
absolute cell indices lie inside the board array `[0, 276)`; and (b) on any
board whose border ring (as laid down by `init`: side columns and the two
bottom rows) is occupied, every shape/anchor combination one of whose cells
lands on a border cell is rejected by `fits_in` through the occupancy check
alone — `fits_in` (see its definition) contains no bounds test. -/
theorem C2_border_bounds_safety :
    (∀ k, k < 19 → ∀ y x : Nat, 1 ≤ y → y ≤ 20 → 1 ≤ x → x ≤ 10 →
      ∀ p ∈ cellsOf k (posOf y x), 0 ≤ p ∧ p < 276) ∧
    (∀ b : Board, (∀ q : Int, borderCell q = true → b q ≠ 0) →
      ∀ k : Nat, ∀ pos : Int, ∀ p ∈ cellsOf k pos, borderCell p = true →
        fits_in b k pos = false) := by
  constructor
  · intro k hk y x hy1 hy2 hx1 hx2 p hp
    have h1 := off_bounds k hk 1 (by omega) (by omega)
    have h2 := off_bounds k hk 2 (by omega) (by omega)
    have h3 := off_bounds k hk 3 (by omega) (by omega)
    simp only [cellsOf, List.mem_cons, List.not_mem_nil, or_false] at hp
    unfold posOf at hp
    rcases hp with rfl | rfl | rfl | rfl <;> omega
  · intro b hb k pos p hp hbp
    exact fits_false_of_cell hp (hb p hbp)

/-- C2 witness: on the freshly initialised board, the horizontal stick
(entry 6) anchored at row 1, column 10 reaches the border column
(cell 23 = row 1, column 11), and `fits_in` rejects it. -/
theorem C2_border_bounds_safety_witness :
    fits_in initBoard 6 (posOf 1 10) = false :=
  C2_border_bounds_safety.2 initBoard
    (fun q hq => by rw [init_border q hq]; decide)
    6 (posOf 1 10) 23 (by decide) (by decide)

/-! ### C3 -/

/-- C3 (counterexample to the claim as stated): the claim says the whole
outermost ring — including the top row — holds the border tag after
initialisation, but `init` leaves the top row's interior empty: cell
`(0, 1)` is `0`, not the border tag `60`. -/
theorem C3_counterexample :
    initBoard (posOf 0 1) = 0 ∧ initBoard (posOf 0 1) ≠ 60 := by decide

/-- C3 (amended): the border laid down by `init` is the left and right
columns plus the two bottom rows (not the top row, whose interior `init`
leaves empty).  Those border cells hold the tag 60 after `init`, and no
core operation ever changes them: row-clearing and row-shifting (for any
scanned row index `i ≤ 20`) leave every border cell untouched, and
`place` guarded by a successful `fits_in` on a board whose border is
occupied never writes a border cell. -/
theorem C3_border_invariant :
    (∀ p : Int, borderCell p = true → initBoard p = 60) ∧
    (∀ (b : Board) (i : Nat) (p : Int), i ≤ 20 → borderCell p = true →
      clearRow b i p = b p) ∧
    (∀ (b : Board) (i : Nat) (p : Int), i ≤ 20 → borderCell p = true →
      shiftRows b i p = b p) ∧
    (∀ (b : Board) (k : Nat) (pos : Int) (c : Int) (p : Int),
      fits_in b k pos = true → (∀ q : Int, borderCell q = true → b q ≠ 0) →
      borderCell p = true → place b k pos c p = b p) := by
  refine ⟨init_border, ?_, ?_, ?_⟩
  · intro b i p hi hp
    rw [borderCell_iff] at hp
    unfold clearRow posOf
    rw [if_neg (by omega)]
  · intro b i p hi hp
    rw [borderCell_iff] at hp
    refine shiftRows_out i b p fun y hy1 hy2 => ?_
    unfold posOf
    omega
  · intro b k pos c p hfit hb hp
    obtain ⟨z0, z1, z2, z3⟩ := fits_true_iff.mp hfit
    have hbn : b p ≠ 0 := hb p hp
    unfold place setCell
    rw [if_neg fun h : p = pos + off k 3 => hbn (h ▸ z3),
      if_neg fun h : p = pos + off k 2 => hbn (h ▸ z2),
      if_neg fun h : p = pos + off k 1 => hbn (h ▸ z1),
      if_neg fun h : p = pos => hbn (h ▸ z0)]

/-- C3 witness: concrete instances of the amended invariant at border cell
0 (the top-left corner of the side columns) and, for `place`, the spawn
placement of shape 0 at anchor 17 on the initial board. -/
theorem C3_border_invariant_witness :
    initBoard 0 = 60 ∧ clearRow initBoard 5 0 = initBoard 0 ∧
    shiftRows initBoard 5 0 = initBoard 0 ∧
    place initBoard 0 17 2 0 = initBoard 0 :=
  ⟨C3_border_invariant.1 0 (by decide),
   C3_border_invariant.2.1 initBoard 5 0 (by omega) (by decide),
   C3_border_invariant.2.2.1 initBoard 5 0 (by omega) (by decide),
   C3_border_invariant.2.2.2 initBoard 0 17 2 0 (by decide)
     (fun q hq => by rw [init_border q hq]; decide) (by decide)⟩

/-! ### Pointwise characterisation of the clear-plus-shift step (C4, C5) -/

lemma shiftRows_in : ∀ (i : Nat) (b : Board) (y x : Nat),
    1 ≤ y → y ≤ i → 1 ≤ x → x ≤ 10 →
    shiftRows b i (posOf y x) = b (posOf (y - 1) x) := by
  intro i
  induction i with
  | zero => intro b y x h1 h2 _ _; omega
  | succ i ih =>
    intro b y x h1 h2 h3 h4
    show shiftRows (copyRow b (i + 1)) i (posOf y x) = b (posOf (y - 1) x)
    by_cases hy : y ≤ i
    · rw [ih (copyRow b (i + 1)) y x h1 hy h3 h4]
      unfold copyRow posOf
      rw [if_neg (by push_cast [Nat.cast_sub h1]; omega)]
    · have hy1 : y = i + 1 := by omega
      subst hy1
      rw [shiftRows_out i _ _ (by unfold posOf; intro z hz1 hz2; omega)]
      unfold copyRow posOf
      rw [if_pos (by push_cast; omega)]
      congr 1
      push_cast [Nat.cast_sub h1]
      ring

lemma clearShiftStep_out (b : Board) (i : Nat) (p : Int) (hi : 1 ≤ i)
    (h : ∀ y : Nat, 1 ≤ y → y ≤ i → ¬(posOf y 1 ≤ p ∧ p ≤ posOf y 10)) :
    clearShiftStep b i p = b p := by
  unfold clearShiftStep
  rw [shiftRows_out i _ p h]
  unfold clearRow
  rw [if_neg (h i hi le_rfl)]

lemma clearShiftStep_in (b : Board) (i y x : Nat) (_hi : 1 ≤ i)
    (hy1 : 1 ≤ y) (hy2 : y ≤ i) (hx1 : 1 ≤ x) (hx2 : x ≤ 10) :
    clearShiftStep b i (posOf y x) = b (posOf (y - 1) x) := by
  unfold clearShiftStep
  rw [shiftRows_in i _ y x hy1 hy2 hx1 hx2]
  unfold clearRow posOf
  rw [if_neg (by push_cast [Nat.cast_sub hy1]; omega)]

lemma clearShiftStep_row0 (b : Board) (i x : Nat) (hi : 1 ≤ i)
    (hx1 : 1 ≤ x) (hx2 : x ≤ 10) :
    clearShiftStep b i (posOf 0 x) = b (posOf 0 x) :=
  clearShiftStep_out b i _ hi (by unfold posOf; intro y hy1 hy2; omega)

lemma clearShiftStep_row_gt (b : Board) (i y x : Nat) (hi : 1 ≤ i)
    (hy : i < y) (hx1 : 1 ≤ x) (hx2 : x ≤ 10) :
    clearShiftStep b i (posOf y x) = b (posOf y x) :=
  clearShiftStep_out b i _ hi (by unfold posOf; intro z hz1 hz2; omega)

/-! ### Row predicates (C4, C5) -/

lemma rowFull_iff {b : Board} {i : Nat} : rowFull b i = true ↔
    ∀ x : Nat, 1 ≤ x → x ≤ 10 → b (posOf i x) ≠ 0 := by
  unfold rowFull
  rw [range10]
  simp only [List.all_cons, List.all_nil, Bool.and_eq_true, bne_iff_ne,
    ne_eq, and_true]
  constructor
  · rintro ⟨h1, h2, h3, h4, h5, h6, h7, h8, h9, h10⟩ x hx1 hx2
    interval_cases x <;> assumption
  · intro h
    refine ⟨h 1 ?_ ?_, h 2 ?_ ?_, h 3 ?_ ?_, h 4 ?_ ?_, h 5 ?_ ?_,
      h 6 ?_ ?_, h 7 ?_ ?_, h 8 ?_ ?_, h 9 ?_ ?_, h 10 ?_ ?_⟩ <;> omega

lemma row0Empty_iff {b : Board} : row0Empty b = true ↔
    ∀ x : Nat, 1 ≤ x → x ≤ 10 → b (posOf 0 x) = 0 := by
  unfold row0Empty
  rw [range10]
  simp only [List.all_cons, List.all_nil, Bool.and_eq_true, beq_iff_eq,
    and_true]
  constructor
  · rintro ⟨h1, h2, h3, h4, h5, h6, h7, h8, h9, h10⟩ x hx1 hx2
    interval_cases x <;> assumption
  · intro h
    refine ⟨h 1 ?_ ?_, h 2 ?_ ?_, h 3 ?_ ?_, h 4 ?_ ?_, h 5 ?_ ?_,
      h 6 ?_ ?_, h 7 ?_ ?_, h 8 ?_ ?_, h 9 ?_ ?_, h 10 ?_ ?_⟩ <;> omega

lemma rowFull_congr {b1 b2 : Board} {y1 y2 : Nat}
    (h : ∀ x : Nat, 1 ≤ x → x ≤ 10 → b1 (posOf y1 x) = b2 (posOf y2 x)) :
    rowFull b1 y1 = rowFull b2 y2 := by
  unfold rowFull
  rw [range10]
  simp only [List.all_cons, List.all_nil]
  rw [h 1 (by omega) (by omega), h 2 (by omega) (by omega),
    h 3 (by omega) (by omega), h 4 (by omega) (by omega),
    h 5 (by omega) (by omega), h 6 (by omega) (by omega),
    h 7 (by omega) (by omega), h 8 (by omega) (by omega),
    h 9 (by omega) (by omega), h 10 (by omega) (by omega)]

lemma rowCount_congr {b1 b2 : Board} {y1 y2 : Nat}
    (h : ∀ x : Nat, 1 ≤ x → x ≤ 10 → b1 (posOf y1 x) = b2 (posOf y2 x)) :
    rowCount b1 y1 = rowCount b2 y2 := by
  unfold rowCount
  rw [range10]
  simp only [List.filter_cons, List.filter_nil]
  rw [h 1 (by omega) (by omega), h 2 (by omega) (by omega),
    h 3 (by omega) (by omega), h 4 (by omega) (by omega),
    h 5 (by omega) (by omega), h 6 (by omega) (by omega),
    h 7 (by omega) (by omega), h 8 (by omega) (by omega),
    h 9 (by omega) (by omega), h 10 (by omega) (by omega)]

lemma rowCount_of_full {b : Board} {i : Nat} (h : rowFull b i = true) :
    rowCount b i = 10 := by
  have hx := rowFull_iff.mp h
  unfold rowCount
  rw [range10]
  simp only [List.filter_cons, List.filter_nil]
  rw [if_pos (by simpa using hx 1 (by omega) (by omega)),
    if_pos (by simpa using hx 2 (by omega) (by omega)),
    if_pos (by simpa using hx 3 (by omega) (by omega)),
    if_pos (by simpa using hx 4 (by omega) (by omega)),
    if_pos (by simpa using hx 5 (by omega) (by omega)),
    if_pos (by simpa using hx 6 (by omega) (by omega)),
    if_pos (by simpa using hx 7 (by omega) (by omega)),
    if_pos (by simpa using hx 8 (by omega) (by omega)),
    if_pos (by simpa using hx 9 (by omega) (by omega)),
    if_pos (by simpa using hx 10 (by omega) (by omega))]
  rfl

lemma rowCount_row0 {b : Board} (h : row0Empty b = true) :
    rowCount b 0 = 0 := by
  have hx := row0Empty_iff.mp h
  unfold rowCount
  rw [range10]
  simp only [List.filter_cons, List.filter_nil]
  rw [if_neg (by simp [hx 1 (by omega) (by omega)]),
    if_neg (by simp [hx 2 (by omega) (by omega)]),
    if_neg (by simp [hx 3 (by omega) (by omega)]),
    if_neg (by simp [hx 4 (by omega) (by omega)]),
    if_neg (by simp [hx 5 (by omega) (by omega)]),
    if_neg (by simp [hx 6 (by omega) (by omega)]),
    if_neg (by simp [hx 7 (by omega) (by omega)]),
    if_neg (by simp [hx 8 (by omega) (by omega)]),
    if_neg (by simp [hx 9 (by omega) (by omega)]),
    if_neg (by simp [hx 10 (by omega) (by omega)])]
  rfl

lemma rowFull_false_of_empty_cell {b : Board} {i x : Nat} (hx1 : 1 ≤ x)
    (hx2 : x ≤ 10) (h : b (posOf i x) = 0) : rowFull b i = false := by
  rw [Bool.eq_false_iff]
  intro hfull
  exact rowFull_iff.mp hfull x hx1 hx2 h

/-! ### Occupied-cell accounting for one clear-plus-shift step (C4) -/

lemma countOcc_step (b : Board) (i : Nat) (h0 : row0Empty b = true)
    (hi1 : 1 ≤ i) (hi2 : i ≤ 20) (hf : rowFull b i = true) :
    countOcc (clearShiftStep b i) + 10 = countOcc b := by
  have hA : ∀ y ∈ Finset.Ico 1 (i + 1),
      rowCount (clearShiftStep b i) y = rowCount b (y - 1) := by
    intro y hy
    rw [Finset.mem_Ico] at hy
    exact rowCount_congr fun x hx1 hx2 =>
      clearShiftStep_in b i y x hi1 (by omega) (by omega) hx1 hx2
  have hB : ∀ y ∈ Finset.Ico (i + 1) 21,
      rowCount (clearShiftStep b i) y = rowCount b y := by
    intro y hy
    rw [Finset.mem_Ico] at hy
    exact rowCount_congr fun x hx1 hx2 =>
      clearShiftStep_row_gt b i y x hi1 (by omega) hx1 hx2
  have split1 : (Finset.Ico 1 (i + 1)).sum (rowCount (clearShiftStep b i)) +
      (Finset.Ico (i + 1) 21).sum (rowCount (clearShiftStep b i)) =
      countOcc (clearShiftStep b i) := by
    unfold countOcc
    exact Finset.sum_Ico_consecutive (rowCount (clearShiftStep b i))
      (by omega) (by omega)
  have e1 : (Finset.Ico 1 (i + 1)).sum (rowCount (clearShiftStep b i)) =
      (Finset.Ico 1 (i + 1)).sum (fun y => rowCount b (y - 1)) :=
    Finset.sum_congr rfl hA
  have e2 : (Finset.Ico (i + 1) 21).sum (rowCount (clearShiftStep b i)) =
      (Finset.Ico (i + 1) 21).sum (rowCount b) :=
    Finset.sum_congr rfl hB
  have e3 : (Finset.Ico 1 (i + 1)).sum (fun y => rowCount b (y - 1)) =
      (Finset.Ico 0 i).sum (rowCount b) := by
    rw [Finset.sum_Ico_eq_sum_range, Finset.sum_Ico_eq_sum_range]
    simp only [Nat.add_sub_cancel, Nat.sub_zero]
    refine Finset.sum_congr rfl fun j _ => ?_
    congr 1
    omega
  have e4a : (Finset.Ico 0 1).sum (rowCount b) +
      (Finset.Ico 1 i).sum (rowCount b) = (Finset.Ico 0 i).sum (rowCount b) :=
    Finset.sum_Ico_consecutive (rowCount b) (by omega) (by omega)
  have e4b : (Finset.Ico 0 1).sum (rowCount b) = rowCount b 0 := by
    rw [← Finset.range_eq_Ico, Finset.sum_range_one]
  have e5a : (Finset.Ico 1 i).sum (rowCount b) +
      (Finset.Ico i 21).sum (rowCount b) = countOcc b := by
    unfold countOcc
    exact Finset.sum_Ico_consecutive (rowCount b) (by omega) (by omega)
  have e5b : (Finset.Ico i (i + 1)).sum (rowCount b) +
      (Finset.Ico (i + 1) 21).sum (rowCount b) =
      (Finset.Ico i 21).sum (rowCount b) :=
    Finset.sum_Ico_consecutive (rowCount b) (by omega) (by omega)
  have e5c : (Finset.Ico i (i + 1)).sum (rowCount b) = rowCount b i := by
    rw [Finset.sum_Ico_eq_sum_range]
    simp
  have h00 : rowCount b 0 = 0 := rowCount_row0 h0
  have h10 : rowCount b i = 10 := rowCount_of_full hf
  omega

/-! ### The clear-cycle invariant (C4) -/

lemma row0Empty_step (b : Board) (i : Nat) (h0 : row0Empty b = true)
    (hi : 1 ≤ i) : row0Empty (clearShiftStep b i) = true := by
  rw [row0Empty_iff]
  intro x hx1 hx2
  rw [clearShiftStep_row0 b i x hi hx1 hx2]
  exact row0Empty_iff.mp h0 x hx1 hx2

lemma clearCycle_inv : ∀ (fuel : Nat) (b : Board) (i k : Nat)
    (b' : Board) (n : Nat), row0Empty b = true → 1 ≤ i →
    (∀ y, 1 ≤ y → y < i → rowFull b y = false) →
    clearCycle fuel b i k = some (b', n) →
    (∀ y, 1 ≤ y → y ≤ 20 → rowFull b' y = false) ∧
    countOcc b' + 10 * n = countOcc b + 10 * k := by
  intro fuel
  induction fuel with
  | zero =>
    intro b i k b' n _ _ _ hc
    exact absurd hc (by unfold clearCycle; exact Option.noConfusion)
  | succ fuel ih =>
    intro b i k b' n h0 hi hnf hc
    have hunf : clearCycle (fuel + 1) b i k =
        (if 21 ≤ i then some (b, k)
         else if rowFull b i then
           clearCycle fuel (clearShiftStep b i) i (k + 1)
         else clearCycle fuel b (i + 1) k) := rfl
    rw [hunf] at hc
    by_cases h21 : 21 ≤ i
    · rw [if_pos h21] at hc
      have hp := Option.some.inj hc
      have hb : b = b' := congrArg Prod.fst hp
      have hk : k = n := congrArg Prod.snd hp
      subst hb
      subst hk
      exact ⟨fun y hy1 hy2 => hnf y hy1 (by omega), by omega⟩
    · rw [if_neg h21] at hc
      by_cases hf : rowFull b i = true
      · rw [if_pos hf] at hc
        have h0' := row0Empty_step b i h0 hi
        have hnf' : ∀ y, 1 ≤ y → y < i →
            rowFull (clearShiftStep b i) y = false := by
          intro y hy1 hy2
          rw [rowFull_congr fun x hx1 hx2 =>
            clearShiftStep_in b i y x hi hy1 (by omega) hx1 hx2]
          by_cases h1 : y = 1
          · subst h1
            exact rowFull_false_of_empty_cell (x := 1) (by omega) (by omega)
              (row0Empty_iff.mp h0 1 (by omega) (by omega))
          · exact hnf (y - 1) (by omega) (by omega)
        obtain ⟨hA, hB⟩ := ih (clearShiftStep b i) i (k + 1) b' n h0' hi
          hnf' hc
        have hstep := countOcc_step b i h0 hi (by omega) hf
        exact ⟨hA, by omega⟩
      · rw [if_neg hf] at hc
        have hnf' : ∀ y, 1 ≤ y → y < i + 1 → rowFull b y = false := by
          intro y hy1 hy2
          by_cases hy : y = i
          · subst hy
            exact Bool.eq_false_iff.mpr hf
          · exact hnf y hy1 (by omega)
        exact ih b (i + 1) k b' n h0 (by omega) hnf' hc

/-! ### C4 and C5 -/

/-- A board whose hidden top row (row 0) is full and whose row 20 is full;
all other playing cells are empty.  Reachable in principle (pieces can lock
into row 0, which the display never shows), it exhibits the row-0
duplication behaviour of the shift loop. -/
def exBoardA : Board := fun p =>
  if (1 ≤ p ∧ p ≤ 10) ∨ (241 ≤ p ∧ p ≤ 250) then 1 else 0

/-- A board with a single occupied cell in the hidden top row (row 0,
column 1) and a full row 20. -/
def exBoardB : Board := fun p =>
  if p = 1 ∨ (241 ≤ p ∧ p ≤ 250) then 1 else 0

/-- A board whose only occupied playing cells form a full row 20. -/
def exBoardC : Board := fun p => if 241 ≤ p ∧ p ≤ 250 then 1 else 0

/-- C4 (counterexample to the claim as stated): on `exBoardA` (row 0 and
row 20 full) the clear-cycle completes — clearing row 20, whose clear+shift
copies full row 0 into row 1 while leaving row 0 itself untouched — and
returns `clears = 1`, yet row 1 of the resulting board is full: "when the
cycle completes no row in the scanned range of playing rows is full" is
false.  (The cycle never re-visits row 1: the scan index stays at the
cleared row and only moves forward.) -/
theorem C4_counterexample :
    ((clearCycle 50 exBoardA 1 0).map fun r => (r.2, rowFull r.1 1)) =
      some (1, true) := by decide

/-- C4 (amended): provided the hidden top row (row 0) is empty when the
cycle starts — which the claim's wording tacitly assumes, and which fails
only in the degenerate reachable state where pieces locked into the hidden
row — a completed clear-cycle (`clearCycle` returning `some`) leaves no
full row among the scanned playing rows 1..20, and the returned count
`clears = n` matches the rows cleared: the occupied-cell count drops by
exactly `10 * n`.  Unconditionally, every clear+shift step at a full row
`i` clears it and shifts every row above it down by exactly one (row `y`
receives the old row `y - 1`, for `1 ≤ y ≤ i`). -/
theorem C4_clear_cycle (b : Board) (fuel n : Nat) (b' : Board)
    (h0 : row0Empty b = true)
    (hc : clearCycle fuel b 1 0 = some (b', n)) :
    (∀ y, 1 ≤ y → y ≤ 20 → rowFull b' y = false) ∧
    countOcc b' + 10 * n = countOcc b ∧
    (∀ (c : Board) (i : Nat), 1 ≤ i → rowFull c i = true →
      ∀ y x : Nat, 1 ≤ y → y ≤ i → 1 ≤ x → x ≤ 10 →
        clearShiftStep c i (posOf y x) = c (posOf (y - 1) x)) := by
  obtain ⟨hA, hB⟩ := clearCycle_inv fuel b 1 0 b' n h0 (by omega)
    (fun y hy1 hy2 => by omega) hc
  exact ⟨hA, by omega, fun c i hi hfull y x hy1 hy2 hx1 hx2 =>
    clearShiftStep_in c i y x hi hy1 hy2 hx1 hx2⟩

/-- C4 witness: on `exBoardC` (exactly one full row, row 20, and an empty
top row) the cycle completes with one clear, and the resulting board has
no full row — instantiated here at row 5. -/
theorem C4_clear_cycle_witness :
    rowFull (clearShiftStep exBoardC 20) 5 = false :=
  (C4_clear_cycle exBoardC 50 1 (clearShiftStep exBoardC 20)
    (by decide) rfl).1 5 (by omega) (by omega)

/-- C5 (counterexample to the claim as stated): the shift loop
`for (y = i; y > 0; --y)` never writes row 0, so a clear+shift step does
NOT leave row 0 empty when it was not empty before: on `exBoardB` (cell
(0,1) occupied, row 20 full) the step at full row 20 leaves cell (0,1)
occupied. -/
theorem C5_counterexample :
    rowFull exBoardB 20 = true ∧
    clearShiftStep exBoardB 20 (posOf 0 1) ≠ 0 := by decide

/-- C5 (amended): a clear+shift step at a full row `i` leaves row 0
unchanged in all non-border columns — hence row 0 is empty after the step
whenever (and only because) it was empty before; the step itself never
empties it. -/
theorem C5_step_row0 (b : Board) (i x : Nat) (hi : 1 ≤ i)
    (hx1 : 1 ≤ x) (hx2 : x ≤ 10) (_hfull : rowFull b i = true) :
    clearShiftStep b i (posOf 0 x) = b (posOf 0 x) ∧
    (b (posOf 0 x) = 0 → clearShiftStep b i (posOf 0 x) = 0) := by
  have h := clearShiftStep_row0 b i x hi hx1 hx2
  exact ⟨h, fun hz => by rw [h, hz]⟩

/-- C5 witness: the step at full row 20 of `exBoardC` leaves cell (0,1)
unchanged (and empty, as it was empty before). -/
theorem C5_step_row0_witness :
    clearShiftStep exBoardC 20 (posOf 0 1) = exBoardC (posOf 0 1) ∧
    (exBoardC (posOf 0 1) = 0 →
      clearShiftStep exBoardC 20 (posOf 0 1) = 0) :=
  C5_step_row0 exBoardC 20 1 (by omega) (by omega) (by omega) (by decide)

end Tetris
